import Mathlib

/-!
Shallow embedding of the auction state machine of
`src/backend/app.py` (cricket-auction-system).

The engine state (`RoomState`) mirrors the per-room dictionary created by
`get_room_state`; Python dictionaries keyed by captain name are embedded as
association lists (`List (String × _)`), which preserves both lookup and the
insertion order that Python dictionaries keep.  Unbounded Python integers are
`Int`.  The process-wide persistence of one room (primary state file plus the
single `.backup` slot maintained by `save_auction_state`) is the `World`
structure; file contents are well-typed snapshots (`Snap`), since a snapshot is
only ever produced by `json.dump` of a well-formed state (the corrupt-file
fallback path of `load_auction_state` is therefore unreachable in the model).
Randomness (`random.shuffle`, `random.choice`) is passed in explicitly: a
shuffle function (constrained to be a permutation in theorems) and a drawn
index (reduced modulo the pool length).  `time.sleep` and timestamps carry no
state; timestamps are threaded as uninterpreted strings.
-/

namespace CricketAuction

/-- One record of `teams[captain]`: the `{"player": ..., "price": ...}` dict
appended by `assign_player`. -/
structure TeamEntry where
  player : String
  price : Int
deriving DecidableEq, Repr

/-- The `last_assignment` dict stored by `assign_player` (line 1087). -/
structure Assignment where
  player : String
  captain : String
  price : Int
  old_balance : Int
  new_balance : Int
  timestamp : String
deriving DecidableEq, Repr

/-- The per-room state dictionary of `get_room_state` / `auction_states`. -/
structure RoomState where
  remaining : List String
  current : Option String
  balances : List (String × Int)
  teams : List (String × List TeamEntry)
  skipped : List String
  last_assignment : Option Assignment
  initialized : Bool
deriving DecidableEq, Repr

/-- The JSON snapshot written by `save_auction_state` (the `saved_at`
timestamp is dropped: it is never read back into the state). -/
structure Snap where
  remaining : List String
  current : Option String
  balances : List (String × Int)
  teams : List (String × List TeamEntry)
  skipped : List String
  last_assignment : Option Assignment
deriving DecidableEq, Repr

/-- The fixed configuration consulted by the handlers: the de-duplicated
player roster from `load_players`, the `captains_list`, `base_price` and
`initial_points` of the auction config (or the module defaults). -/
structure AuctionConfig where
  roster : List String
  captains : List String
  base_price : Int
  initial_points : Int
deriving DecidableEq, Repr

/-- One room's durable storage: the in-memory state plus the primary state
file and its `.backup` slot. -/
structure World where
  room : RoomState
  primary : Option Snap
  backup : Option Snap
deriving DecidableEq, Repr

/-- Error taxonomy of the engine handlers (each maps to a 4xx/5xx JSON error
response in the source).  `keyError` is a raised Python `KeyError` caught by
the surrounding `except` block (500 response). -/
inductive AuctionError where
  | alreadySelected
  | poolExhausted
  | noSelection
  | invalidCaptain
  | priceBelowMinimum
  | insufficientBalance
  | noBackup
  | keyError
deriving DecidableEq, Repr

/-- Payload of a successful `/api/pick` response. -/
structure PickResult where
  current : Option String
  remaining : List String
  remainingCount : Nat
  skippedCount : Nat
deriving DecidableEq, Repr

/-- Payload of a successful `/api/skip` response; `skipped` echoes the player
that was just skipped (the prior `current`). -/
structure SkipResult where
  current : Option String
  skipped : String
  remaining : List String
  remainingCount : Nat
  skippedCount : Nat
deriving DecidableEq, Repr

/-- Payload of a successful `/api/assign` response. -/
structure AssignResult where
  success : Bool
  current : Option String
  balances : List (String × Int)
  teams : List (String × List TeamEntry)
  remaining : List String
  remainingCount : Nat
  skippedCount : Nat
  lastAssignment : Option Assignment
deriving DecidableEq, Repr

/-- Python dict read `d.get(k)` / `d[k]` on a string-keyed dict. -/
def lookupA {α : Type} (l : List (String × α)) (k : String) : Option α :=
  (l.find? (fun p => p.1 = k)).map (fun p => p.2)

/-- Python dict write `d[k] = v` when `k` is already a key: the entry is
updated in place, keeping its position. -/
def updateA {α : Type} (l : List (String × α)) (k : String) (v : α) :
    List (String × α) :=
  l.map (fun p => if p.1 = k then (k, v) else p)

/-- Python dict write `d[k] = v` in general: update in place if the key
exists, otherwise append a new entry (insertion order). -/
def setA {α : Type} (l : List (String × α)) (k : String) (v : α) :
    List (String × α) :=
  if (lookupA l k).isSome then updateA l k v else l ++ [(k, v)]

/-- `if cur in remaining: remaining.remove(cur)` — `list.remove` deletes the
first occurrence. -/
def removeCurrent (remaining : List String) (cur : String) : List String :=
  if cur ∈ remaining then remaining.erase cur else remaining

/-- `if cur not in skipped: skipped.append(cur)` — the idempotency guard of
`skip_player` (line 997). -/
def addSkipped (skipped : List String) (cur : String) : List String :=
  if cur ∈ skipped then skipped else skipped ++ [cur]

/-- `random.choice(remaining)` given the externally drawn index `idx`:
every index denotes the element at `idx % length`, so for a non-empty pool
every element is a possible outcome. -/
def drawFrom (remaining : List String) (idx : Nat) : String :=
  remaining.getD (idx % remaining.length) ""

/-- The recycle step shared by pick/skip/assign (e.g. lines 947-952):
`if not remaining and skipped: remaining = shuffle(skipped); skipped = []`. -/
def recycle (shuffle : List String → List String) (s : RoomState) : RoomState :=
  if s.remaining = [] ∧ s.skipped ≠ [] then
    { s with remaining := shuffle s.skipped, skipped := [] }
  else s

/-- `pick_player` (lines 934-976), after the `initialize_auction` prelude:
reject if a player is already on the block, recycle the skipped pool when the
remaining pool is exhausted, reject if the pool is still empty, otherwise draw
`current` from `remaining` without removing it. -/
def pick_player (shuffle : List String → List String) (idx : Nat)
    (s : RoomState) : RoomState × Except AuctionError PickResult :=
  if (s.current).isSome then (s, .error .alreadySelected)
  else if (recycle shuffle s).remaining = [] then
    (recycle shuffle s, .error .poolExhausted)
  else
    let s2 := { recycle shuffle s with
                current := some (drawFrom (recycle shuffle s).remaining idx) }
    (s2, .ok { current := s2.current, remaining := s2.remaining,
               remainingCount := s2.remaining.length,
               skippedCount := s2.skipped.length })

/-- Lines 992-998 of `skip_player`: drop the current player from `remaining`
(first occurrence) and add it to `skipped` unless already present. -/
def skipMid (s : RoomState) (cur : String) : RoomState :=
  { s with remaining := removeCurrent s.remaining cur,
           skipped := addSkipped s.skipped cur }

/-- Lines 1009-1018 of `skip_player`: draw the next `current` from the pool
if it is non-empty, else clear the selection. -/
def advance (idx : Nat) (s : RoomState) : RoomState :=
  if s.remaining ≠ [] then { s with current := some (drawFrom s.remaining idx) }
  else { s with current := none }

/-- `skip_player` (lines 978-1033), after the `initialize_auction` prelude:
reject if nothing is selected; move `current` out of `remaining` and into
`skipped` (guarding against duplicates), recycle if the pool emptied, then
auto-advance by drawing a new `current` when possible. -/
def skip_player (shuffle : List String → List String) (idx : Nat)
    (s : RoomState) : RoomState × Except AuctionError SkipResult :=
  match s.current with
  | none => (s, .error .noSelection)
  | some cur =>
    let s3 := advance idx (recycle shuffle (skipMid s cur))
    (s3, .ok { current := s3.current, skipped := cur, remaining := s3.remaining,
               remainingCount := s3.remaining.length,
               skippedCount := s3.skipped.length })

/-- Python truthiness of the `current` field: `if not current_player` is taken
for `None` and for the empty string. -/
def currentFalsy : Option String → Bool
  | none => true
  | some p => p = ""

/-- The mutations of a successful assignment (lines 1081-1103): decrement the
captain's balance, append the purchase record to the captain's team, store
the `last_assignment` snapshot, drop the player from `remaining`, clear
`current`. -/
def assignApply (captain : String) (price : Int) (ts : String)
    (old_balance : Int) (roster : List TeamEntry) (current_player : String)
    (s : RoomState) : RoomState :=
  { s with balances := updateA s.balances captain (old_balance - price),
           teams := updateA s.teams captain
             (roster ++ [{ player := current_player, price := price }]),
           last_assignment := some
             { player := current_player, captain := captain, price := price,
               old_balance := old_balance, new_balance := old_balance - price,
               timestamp := ts },
           remaining := removeCurrent s.remaining current_player,
           current := none }

/-- `assign_player` (lines 1035-1135), after the `initialize_auction` prelude.
Validation order follows the source: selection, captain, minimum price,
balance.  The balance read `auction_state["balances"][captain]` raises
`KeyError` when the captain has no balance entry; the team append
`auction_state["teams"][captain].append(...)` raises `KeyError` *after* the
balance was already decremented, which is the one error path of the handler
that leaves the state half-updated. -/
def assign_player (cfg : AuctionConfig) (captain : String) (price : Int)
    (ts : String) (shuffle : List String → List String) (s : RoomState) :
    RoomState × Except AuctionError AssignResult :=
  if currentFalsy s.current then (s, .error .noSelection)
  else if captain = "" ∨ captain ∉ cfg.captains then (s, .error .invalidCaptain)
  else if price < cfg.base_price then (s, .error .priceBelowMinimum)
  else
    match lookupA s.balances captain with
    | none => (s, .error .keyError)
    | some old_balance =>
      if price > old_balance then (s, .error .insufficientBalance)
      else
        match lookupA s.teams captain with
        | none =>
          ({ s with balances := updateA s.balances captain (old_balance - price) },
           .error .keyError)
        | some roster =>
          let s2 := recycle shuffle
            (assignApply captain price ts old_balance roster ((s.current).getD "") s)
          (s2, .ok { success := true, current := none, balances := s2.balances,
                     teams := s2.teams, remaining := s2.remaining,
                     remainingCount := s2.remaining.length,
                     skippedCount := s2.skipped.length,
                     lastAssignment := s2.last_assignment })

/-- `reset_auction` (lines 1137-1188): unconditionally rebuild the room from
the roster and config.  The handler then re-filters the (freshly emptied)
team rosters against the player list and leaves `last_assignment` untouched. -/
def reset_auction (cfg : AuctionConfig) (s : RoomState) : RoomState :=
  let base : RoomState :=
    { remaining := cfg.roster, skipped := [], current := none,
      balances := cfg.captains.map (fun c => (c, cfg.initial_points)),
      teams := cfg.captains.map (fun c => (c, ([] : List TeamEntry))),
      last_assignment := s.last_assignment, initialized := true }
  { base with
    teams := base.teams.map
      (fun t => (t.1, t.2.filter (fun e => e.player ∈ cfg.roster))) }

/-- `if auction_state["current"] and current not in names: current = None`
(lines 438-440 and 463-465): the clear only fires for a truthy current. -/
def clearInvalidCurrent : Option String → List String → Option String
  | none, _ => none
  | some c, roster => if c ≠ "" ∧ c ∉ roster then none else some c

/-- The set `assigned_players` built at lines 402-410 from the teams of the
configured captains. -/
def assignedPlayers (cfg : AuctionConfig)
    (teams : List (String × List TeamEntry)) : List String :=
  (cfg.captains.map (fun c => ((lookupA teams c).getD []).map
    (fun e => e.player))).flatten

/-- The roster/captain reconciliation of the first-bootstrap path of
`initialize_auction` (lines 398-446): filter `remaining` to the roster,
append rostered players that are neither remaining nor assigned, ensure and
filter a team entry per captain, ensure a balance entry per captain, clear an
invalid `current`. -/
def bootstrapReconcile (cfg : AuctionConfig) (s : RoomState) : RoomState :=
  { s with
    remaining :=
      s.remaining.filter (fun p => p ∈ cfg.roster)
        ++ cfg.roster.filter (fun p =>
             p ∉ s.remaining.filter (fun q => q ∈ cfg.roster)
             ∧ p ∉ assignedPlayers cfg s.teams),
    teams := cfg.captains.foldl
      (fun t c => setA t c (((lookupA t c).getD []).filter
        (fun e => e.player ∈ cfg.roster))) s.teams,
    balances := cfg.captains.foldl
      (fun b c => if (lookupA b c).isSome then b
                  else b ++ [(c, cfg.initial_points)]) s.balances,
    current := clearInvalidCurrent s.current cfg.roster }

/-- The `else` branch of `initialize_auction` for an already-initialized room
(lines 450-465): re-sync against the roster only — filter `remaining`, filter
the team entries of configured captains that are present, clear an invalid
`current`.  No entries are added for captains or players. -/
def reconcileSync (cfg : AuctionConfig) (s : RoomState) : RoomState :=
  { s with
    remaining := s.remaining.filter (fun p => p ∈ cfg.roster),
    teams := cfg.captains.foldl
      (fun t c => if (lookupA t c).isSome then
          updateA t c (((lookupA t c).getD []).filter
            (fun e => e.player ∈ cfg.roster))
        else t) s.teams,
    current := clearInvalidCurrent s.current cfg.roster }

/-- The fields set by the fresh-start branch of `initialize_auction`
(lines 388-396); `last_assignment` is not touched there. -/
def freshStateFields (cfg : AuctionConfig) (s : RoomState) : RoomState :=
  { s with remaining := cfg.roster, skipped := [], current := none,
           balances := cfg.captains.map (fun c => (c, cfg.initial_points)),
           teams := cfg.captains.map (fun c => (c, ([] : List TeamEntry))) }

/-- Adopting a loaded snapshot into the room dictionary
(`load_auction_state`, lines 333-338). -/
def restoreFromSnap (b : Snap) (s : RoomState) : RoomState :=
  { s with remaining := b.remaining, current := b.current,
           balances := b.balances, teams := b.teams, skipped := b.skipped,
           last_assignment := b.last_assignment }

/-- What `save_auction_state` serializes (lines 286-294). -/
def snapOf (s : RoomState) : Snap :=
  { remaining := s.remaining, current := s.current, balances := s.balances,
    teams := s.teams, skipped := s.skipped,
    last_assignment := s.last_assignment }

/-- `save_auction_state` (lines 282-312): if a primary file exists it is
renamed over the backup slot, then the current state is written as the new
primary. -/
def save_auction_state (w : World) : World :=
  { w with backup := if w.primary.isSome then w.primary else w.backup,
           primary := some (snapOf w.room) }

/-- The empty room dictionary created by `get_room_state` on first access. -/
def initialRoomState : RoomState :=
  { remaining := [], current := none, balances := [], teams := [],
    skipped := [], last_assignment := none, initialized := false }

/-- `initialize_auction` (lines 371-465) at the room's world: an initialized
room is only re-synced; otherwise the primary snapshot is adopted when
present (else a fresh state is built), the bootstrap reconciliation runs, the
room is marked initialized and saved. -/
def initialize_auction (cfg : AuctionConfig) (w : World) : World :=
  if w.room.initialized then
    { w with room := reconcileSync cfg w.room }
  else
    let base := match w.primary with
      | some snap => restoreFromSnap snap w.room
      | none => freshStateFields cfg w.room
    let s1 := bootstrapReconcile cfg base
    let s2 := { s1 with initialized := true }
    save_auction_state { w with room := s2 }

/-- `undo_last_action` (lines 1190-1259): after the initialize prelude, fail
if no backup file exists; otherwise adopt the backup state, delete the
primary file, rename the backup over the primary slot, and re-save (which
pushes that primary into the backup slot again). -/
def undo_last_action (cfg : AuctionConfig) (w : World) :
    World × Except AuctionError Unit :=
  match (initialize_auction cfg w).backup with
  | none => (initialize_auction cfg w, .error .noBackup)
  | some b =>
    (save_auction_state
      { room := { restoreFromSnap b (initialize_auction cfg w).room
                  with initialized := true },
        primary := some b, backup := none },
     .ok ())

/-- The `/api/pick` handler at the world: initialize, run the engine step,
save only on success (error responses return before the save). -/
def pick_route (cfg : AuctionConfig) (shuffle : List String → List String)
    (idx : Nat) (w : World) : World :=
  match pick_player shuffle idx (initialize_auction cfg w).room with
  | (s, Except.ok _) => save_auction_state { initialize_auction cfg w with room := s }
  | (s, Except.error _) => { initialize_auction cfg w with room := s }

/-- The `/api/skip` handler at the world. -/
def skip_route (cfg : AuctionConfig) (shuffle : List String → List String)
    (idx : Nat) (w : World) : World :=
  match skip_player shuffle idx (initialize_auction cfg w).room with
  | (s, Except.ok _) => save_auction_state { initialize_auction cfg w with room := s }
  | (s, Except.error _) => { initialize_auction cfg w with room := s }

/-- The `/api/assign` handler at the world. -/
def assign_route (cfg : AuctionConfig) (captain : String) (price : Int)
    (ts : String) (shuffle : List String → List String) (w : World) : World :=
  match assign_player cfg captain price ts shuffle (initialize_auction cfg w).room with
  | (s, Except.ok _) => save_auction_state { initialize_auction cfg w with room := s }
  | (s, Except.error _) => { initialize_auction cfg w with room := s }

/-- The `/api/reset` handler at the world: rebuild and save (no initialize
prelude in the source handler). -/
def reset_route (cfg : AuctionConfig) (w : World) : World :=
  save_auction_state { w with room := reset_auction cfg w.room }

/-- The `/api/undo` handler at the world. -/
def undo_route (cfg : AuctionConfig) (w : World) : World :=
  (undo_last_action cfg w).1

/-- One engine operation together with its random draws: the shuffle used by
a potential recycle and the index drawn by `random.choice`. -/
inductive Op where
  | init
  | pick (shuffle : List String → List String) (idx : Nat)
  | skip (shuffle : List String → List String) (idx : Nat)
  | assign (captain : String) (price : Int) (ts : String)
      (shuffle : List String → List String)
  | reset
  | undo

/-- A shuffle oracle is a permutation of its input (`random.shuffle`). -/
def permFn (f : List String → List String) : Prop :=
  ∀ l : List String, (f l).Perm l

/-- Validity of an operation's random draws. -/
def Op.ok : Op → Prop
  | .pick f _ => permFn f
  | .skip f _ => permFn f
  | .assign _ _ _ f => permFn f
  | _ => True

/-- Apply one operation at the world, as the corresponding route does. -/
def applyOp (cfg : AuctionConfig) : Op → World → World
  | .init, w => initialize_auction cfg w
  | .pick f idx, w => pick_route cfg f idx w
  | .skip f idx, w => skip_route cfg f idx w
  | .assign c p t f, w => assign_route cfg c p t f w
  | .reset, w => reset_route cfg w
  | .undo, w => undo_route cfg w

/-- Run a sequence of operations. -/
def runOps (cfg : AuctionConfig) (ops : List Op) (w : World) : World :=
  ops.foldl (fun w op => applyOp cfg op w) w

/-- A fresh bootstrap: the very first `initialize_auction` on a room that has
no in-memory state and no state file. -/
def freshBootstrap (cfg : AuctionConfig) : World :=
  initialize_auction cfg { room := initialRoomState, primary := none, backup := none }

/-- `sum(balances.values())`. -/
def totalBalances (s : RoomState) : Int :=
  (s.balances.map (fun p => p.2)).sum

/-- `sum(price for team in teams.values() for (_, price) in team)`. -/
def totalPrices (s : RoomState) : Int :=
  (s.teams.map (fun t => (t.2.map (fun e => e.price)).sum)).sum

/-- The room state produced by adopting snapshot `b` (as `undo_last_action`
does: all six persisted fields, `initialized` forced to `true`). -/
def restoreRoom (b : Snap) : RoomState :=
  { restoreFromSnap b initialRoomState with initialized := true }

/-- The state a fresh bootstrap produces for a fixed configuration. -/
def freshRoom (cfg : AuctionConfig) : RoomState :=
  { remaining := cfg.roster, current := none,
    balances := cfg.captains.map (fun c => (c, cfg.initial_points)),
    teams := cfg.captains.map (fun c => (c, ([] : List TeamEntry))),
    skipped := [], last_assignment := none, initialized := true }

/-- Well-formedness of a room state for a fixed configuration: balance and
team dictionaries are keyed exactly by the configured captains, every player
name tracked anywhere belongs to the roster, the conservation equation of
spec invariant I2 holds, and the room is initialized. -/
structure WF (cfg : AuctionConfig) (s : RoomState) : Prop where
  balKeys : s.balances.map (fun p => p.1) = cfg.captains
  teamKeys : s.teams.map (fun p => p.1) = cfg.captains
  remSub : ∀ p ∈ s.remaining, p ∈ cfg.roster
  skipSub : ∀ p ∈ s.skipped, p ∈ cfg.roster
  curSub : ∀ p, s.current = some p → p ∈ cfg.roster
  teamSub : ∀ t ∈ s.teams, ∀ e ∈ t.2, e.player ∈ cfg.roster
  conserv : totalBalances s + totalPrices s
    = cfg.initial_points * cfg.captains.length
  isInit : s.initialized = true

/-- Well-formedness of a persisted snapshot. -/
def WFsnap (cfg : AuctionConfig) (b : Snap) : Prop :=
  WF cfg (restoreRoom b)

/-- Well-formedness of a world: the live room and both storage slots. -/
structure WFw (cfg : AuctionConfig) (w : World) : Prop where
  room : WF cfg w.room
  primarySlot : ∀ b, w.primary = some b → WFsnap cfg b
  backupSlot : ∀ b, w.backup = some b → WFsnap cfg b

/-! ### Concrete instances used as witnesses and counterexamples -/

/-- A small two-player, two-captain configuration (spec 8's end-to-end
scenario). -/
def cfgEx : AuctionConfig :=
  { roster := ["P1", "P2"], captains := ["C1", "C2"],
    base_price := 5, initial_points := 200 }

/-- A state where captain C1 has only 10 points left. -/
def sLow : RoomState :=
  { remaining := ["P2"], current := some "P1",
    balances := [("C1", 10), ("C2", 200)],
    teams := [("C1", []), ("C2", [])], skipped := [],
    last_assignment := none, initialized := true }

/-- A fresh-looking state with player P1 on the block. -/
def sOk : RoomState :=
  { remaining := ["P1", "P2"], current := some "P1",
    balances := [("C1", 200), ("C2", 200)],
    teams := [("C1", []), ("C2", [])], skipped := [],
    last_assignment := none, initialized := true }

/-- The recycle scenario of spec 8: empty pool, three skipped players. -/
def recycleDemoState : RoomState :=
  { remaining := [], current := none,
    balances := [("C1", 200), ("C2", 200)],
    teams := [("C1", []), ("C2", [])],
    skipped := ["A", "B", "C"], last_assignment := none, initialized := true }

/-- A state whose current player is the last remaining one. -/
def lastManState : RoomState :=
  { remaining := ["P1"], current := some "P1",
    balances := [("C1", 200), ("C2", 200)],
    teams := [("C1", []), ("C2", [])], skipped := [],
    last_assignment := none, initialized := true }

/-- A room state distinct from the fresh one (one player already drafted away
from the pool). -/
def s2Ex : RoomState := { freshRoom cfgEx with remaining := ["P2"] }

/-- A state with both pools exhausted and no selection. -/
def sEmptyPool : RoomState :=
  { remaining := [], current := none,
    balances := [("C1", 200), ("C2", 200)],
    teams := [("C1", []), ("C2", [])], skipped := [],
    last_assignment := none, initialized := true }

/-- A world whose primary slot holds the live state and whose backup holds an
older, different state. -/
def w8 : World :=
  { room := s2Ex, primary := some (snapOf s2Ex),
    backup := some (snapOf (freshRoom cfgEx)) }

/-- An already-initialized room that lacks a balance entry for the newly
configured captain C2. -/
def w9 : World :=
  { room := { freshRoom cfgEx with balances := [("C1", 200)] },
    primary := none, backup := none }

/-- The world of a never-touched room: fresh in-memory dictionary, no state
file, no backup. -/
def w0Ex : World :=
  { room := initialRoomState, primary := none, backup := none }

/-! ### Association-list lemmas -/

theorem lookupA_nil {α : Type} (k : String) : lookupA ([] : List (String × α)) k = none := rfl

theorem lookupA_cons {α : Type} (a : String × α) (t : List (String × α)) (k : String) :
    lookupA (a :: t) k = if a.1 = k then some a.2 else lookupA t k := by
  by_cases h : a.1 = k <;> simp [lookupA, List.find?_cons, h]

theorem updateA_cons {α : Type} (a : String × α) (t : List (String × α)) (k : String) (v : α) :
    updateA (a :: t) k v = (if a.1 = k then (k, v) else a) :: updateA t k v := by
  by_cases h : a.1 = k <;> simp [updateA, h]

theorem updateA_of_not_mem {α : Type} (k : String) (v : α) :
    ∀ (l : List (String × α)), k ∉ l.map (fun p => p.1) → updateA l k v = l
  | [], _ => rfl
  | a :: t, h => by
    simp only [List.map_cons, List.mem_cons] at h
    push_neg at h
    rw [updateA_cons, if_neg (fun hh => h.1 hh.symm), updateA_of_not_mem k v t h.2]

theorem keys_updateA {α : Type} (k : String) (v : α) :
    ∀ (l : List (String × α)), (updateA l k v).map (fun p => p.1) = l.map (fun p => p.1)
  | [] => rfl
  | a :: t => by
    rw [updateA_cons]
    by_cases h : a.1 = k <;> simp [h, keys_updateA k v t]

theorem lookupA_isSome_of_mem_keys {α : Type} (k : String) :
    ∀ (l : List (String × α)), k ∈ l.map (fun p => p.1) → (lookupA l k).isSome
  | a :: t, h => by
    rw [lookupA_cons]
    by_cases hh : a.1 = k
    · simp [hh]
    · simp only [List.map_cons, List.mem_cons] at h
      rcases h with h | h
      · exact absurd h.symm hh
      · simpa [hh] using lookupA_isSome_of_mem_keys k t h

theorem lookupA_eq_some_of_mem_keys {α : Type} (k : String) (l : List (String × α))
    (h : k ∈ l.map (fun p => p.1)) : ∃ v, lookupA l k = some v := by
  have := lookupA_isSome_of_mem_keys k l h
  exact Option.isSome_iff_exists.mp this

theorem mem_of_lookupA {α : Type} (k : String) (v : α) :
    ∀ (l : List (String × α)), lookupA l k = some v → (k, v) ∈ l
  | a :: t, h => by
    rw [lookupA_cons] at h
    by_cases hh : a.1 = k
    · rw [if_pos hh] at h
      have hv : a.2 = v := Option.some.inj h
      have : (k, v) = a := by rw [← hv, ← hh]
      rw [this]
      exact List.mem_cons_self a t
    · rw [if_neg hh] at h
      exact List.mem_cons_of_mem a (mem_of_lookupA k v t h)

theorem lookupA_updateA_self {α : Type} (k : String) (v : α) :
    ∀ (l : List (String × α)), (lookupA l k).isSome →
      lookupA (updateA l k v) k = some v
  | a :: t, h => by
    rw [updateA_cons]
    by_cases hh : a.1 = k
    · simp [hh, lookupA_cons]
    · rw [if_neg hh, lookupA_cons, if_neg hh]
      rw [lookupA_cons, if_neg hh] at h
      exact lookupA_updateA_self k v t h

theorem updateA_eq_self {α : Type} (k : String) (v : α) :
    ∀ (l : List (String × α)), (l.map (fun p => p.1)).Nodup →
      lookupA l k = some v → updateA l k v = l
  | a :: t, hnd, h => by
    simp only [List.map_cons, List.nodup_cons] at hnd
    rw [lookupA_cons] at h
    rw [updateA_cons]
    by_cases hh : a.1 = k
    · have hv : a.2 = v := by
        rw [if_pos hh] at h
        exact Option.some.inj h
      rw [if_pos hh, updateA_of_not_mem k v t (hh ▸ hnd.1), ← hv, ← hh]
    · rw [if_neg hh] at h
      rw [if_neg hh, updateA_eq_self k v t hnd.2 h]

theorem sum_map_updateA {α : Type} (f : α → Int) (k : String) (v w : α) :
    ∀ (l : List (String × α)), (l.map (fun p => p.1)).Nodup →
      lookupA l k = some v →
      ((updateA l k w).map (fun p => f p.2)).sum
        = (l.map (fun p => f p.2)).sum - f v + f w
  | a :: t, hnd, h => by
    simp only [List.map_cons, List.nodup_cons] at hnd
    rw [lookupA_cons] at h
    rw [updateA_cons]
    by_cases hh : a.1 = k
    · have hv : a.2 = v := by
        rw [if_pos hh] at h
        exact Option.some.inj h
      rw [if_pos hh, updateA_of_not_mem k w t (hh ▸ hnd.1)]
      simp only [List.map_cons, List.sum_cons, ← hv]
      ring
    · rw [if_neg hh] at h
      rw [if_neg hh]
      simp only [List.map_cons, List.sum_cons, sum_map_updateA f k v w t hnd.2 h]
      ring

theorem lookupA_map_const {α : Type} (v : α) (c : String) :
    ∀ (l : List String), c ∈ l → lookupA (l.map (fun x => (x, v))) c = some v
  | a :: t, h => by
    simp only [List.map_cons, lookupA_cons]
    by_cases hh : a = c
    · simp [hh]
    · rcases List.mem_cons.mp h with h1 | h1
      · exact absurd h1.symm hh
      · simpa [hh] using lookupA_map_const v c t h1

theorem keys_map_pair {α : Type} (f : String → α) (l : List String) :
    (l.map (fun c => (c, f c))).map (fun p => p.1) = l := by
  induction l with
  | nil => rfl
  | cons a t ih => simp only [List.map_cons, ih]

/-! ### Small helpers -/

theorem foldl_id {α β : Type} (f : α → β → α) (t : α) :
    ∀ (l : List β), (∀ c ∈ l, f t c = t) → l.foldl f t = t
  | [], _ => rfl
  | c :: cs, h => by
    rw [List.foldl_cons, h c (List.mem_cons_self c cs)]
    exact foldl_id f t cs (fun x hx => h x (List.mem_cons_of_mem c hx))

theorem sum_map_const_int {α : Type} (k : Int) :
    ∀ (l : List α), (l.map (fun _ => k)).sum = l.length * k
  | [] => by simp
  | a :: t => by
    simp [sum_map_const_int k t]
    ring

theorem drawFrom_mem (remaining : List String) (idx : Nat) (h : remaining ≠ []) :
    drawFrom remaining idx ∈ remaining := by
  have hlt : idx % remaining.length < remaining.length :=
    Nat.mod_lt _ (List.length_pos.mpr h)
  unfold drawFrom
  rw [List.getD_eq_getElem?_getD, List.getElem?_eq_getElem hlt]
  exact List.getElem_mem hlt

theorem recycle_balances (shuffle : List String → List String) (s : RoomState) :
    (recycle shuffle s).balances = s.balances := by
  unfold recycle; split <;> rfl

theorem recycle_teams (shuffle : List String → List String) (s : RoomState) :
    (recycle shuffle s).teams = s.teams := by
  unfold recycle; split <;> rfl

theorem recycle_current (shuffle : List String → List String) (s : RoomState) :
    (recycle shuffle s).current = s.current := by
  unfold recycle; split <;> rfl

theorem recycle_last_assignment (shuffle : List String → List String) (s : RoomState) :
    (recycle shuffle s).last_assignment = s.last_assignment := by
  unfold recycle; split <;> rfl

theorem recycle_initialized (shuffle : List String → List String) (s : RoomState) :
    (recycle shuffle s).initialized = s.initialized := by
  unfold recycle; split <;> rfl

/-! ### Invariant preservation -/

theorem clearInvalidCurrent_of_mem (c : Option String) (roster : List String)
    (h : ∀ p, c = some p → p ∈ roster) : clearInvalidCurrent c roster = c := by
  match c with
  | none => rfl
  | some p =>
    have hp := h p rfl
    simp [clearInvalidCurrent, hp]

theorem removeCurrent_subset (rem : List String) (cur p : String)
    (h : p ∈ removeCurrent rem cur) : p ∈ rem := by
  unfold removeCurrent at h
  split at h
  · exact List.mem_of_mem_erase h
  · exact h

theorem addSkipped_subset (sk : List String) (cur p : String)
    (h : p ∈ addSkipped sk cur) : p ∈ sk ∨ p = cur := by
  unfold addSkipped at h
  split at h
  · exact Or.inl h
  · rcases List.mem_append.mp h with h1 | h1
    · exact Or.inl h1
    · simp only [List.mem_singleton] at h1
      exact Or.inr h1

theorem mem_updateA {α : Type} (l : List (String × α)) (k : String) (v : α)
    (t : String × α) (h : t ∈ updateA l k v) : t = (k, v) ∨ t ∈ l := by
  unfold updateA at h
  rcases List.mem_map.mp h with ⟨p, hp, he⟩
  by_cases hc : p.1 = k
  · rw [if_pos hc] at he
    exact Or.inl he.symm
  · rw [if_neg hc] at he
    exact Or.inr (he ▸ hp)

theorem reconcileSync_eq_self (cfg : AuctionConfig) (s : RoomState)
    (hnd : cfg.captains.Nodup) (h : WF cfg s) : reconcileSync cfg s = s := by
  have hrem : s.remaining.filter (fun p => decide (p ∈ cfg.roster)) = s.remaining :=
    List.filter_eq_self.mpr (fun a ha => by simpa using h.remSub a ha)
  have hteams : cfg.captains.foldl
      (fun t c => if (lookupA t c).isSome then
          updateA t c (((lookupA t c).getD []).filter
            (fun e => decide (e.player ∈ cfg.roster)))
        else t) s.teams = s.teams := by
    apply foldl_id
    intro c hc
    have hmem : c ∈ s.teams.map (fun p => p.1) := by
      rw [h.teamKeys]; exact hc
    obtain ⟨v, hv⟩ := lookupA_eq_some_of_mem_keys c s.teams hmem
    have hfilter : v.filter (fun e => decide (e.player ∈ cfg.roster)) = v := by
      apply List.filter_eq_self.mpr
      intro e he
      have hmemt : (c, v) ∈ s.teams := mem_of_lookupA c v s.teams hv
      simpa using h.teamSub (c, v) hmemt e he
    have hkeysnd : (s.teams.map (fun p => p.1)).Nodup := by
      rw [h.teamKeys]; exact hnd
    simp only [hv, Option.isSome_some, if_true, Option.getD_some, hfilter]
    exact updateA_eq_self c v s.teams hkeysnd hv
  have hcur := clearInvalidCurrent_of_mem s.current cfg.roster h.curSub
  unfold reconcileSync
  rw [hrem, hteams, hcur]

/-! ### Case equations for the engine operations -/

theorem pick_eq_alreadySelected (shuffle : List String → List String)
    (idx : Nat) (s : RoomState) (h : (s.current).isSome) :
    pick_player shuffle idx s = (s, .error .alreadySelected) := by
  unfold pick_player
  rw [if_pos h]

theorem pick_eq_poolExhausted (shuffle : List String → List String)
    (idx : Nat) (s : RoomState) (h1 : s.current = none)
    (h2 : (recycle shuffle s).remaining = []) :
    pick_player shuffle idx s = (recycle shuffle s, .error .poolExhausted) := by
  unfold pick_player
  rw [h1]
  simp only [Option.isSome_none, Bool.false_eq_true, if_false, if_pos h2]

theorem pick_eq_ok (shuffle : List String → List String) (idx : Nat)
    (s : RoomState) (h1 : s.current = none)
    (h2 : (recycle shuffle s).remaining ≠ []) :
    pick_player shuffle idx s =
      ({ recycle shuffle s with
         current := some (drawFrom (recycle shuffle s).remaining idx) },
       .ok { current := some (drawFrom (recycle shuffle s).remaining idx),
             remaining := (recycle shuffle s).remaining,
             remainingCount := (recycle shuffle s).remaining.length,
             skippedCount := (recycle shuffle s).skipped.length }) := by
  unfold pick_player
  rw [h1]
  simp only [Option.isSome_none, Bool.false_eq_true, if_false, if_neg h2]

theorem skip_eq_noSelection (shuffle : List String → List String) (idx : Nat)
    (s : RoomState) (h : s.current = none) :
    skip_player shuffle idx s = (s, .error .noSelection) := by
  unfold skip_player
  rw [h]

theorem skip_eq_ok (shuffle : List String → List String) (idx : Nat)
    (s : RoomState) (cur : String) (h : s.current = some cur) :
    skip_player shuffle idx s =
      (advance idx (recycle shuffle (skipMid s cur)),
       .ok { current := (advance idx (recycle shuffle (skipMid s cur))).current,
             skipped := cur,
             remaining := (advance idx (recycle shuffle (skipMid s cur))).remaining,
             remainingCount :=
               (advance idx (recycle shuffle (skipMid s cur))).remaining.length,
             skippedCount :=
               (advance idx (recycle shuffle (skipMid s cur))).skipped.length }) := by
  unfold skip_player
  rw [h]

theorem assign_eq_noSelection (cfg : AuctionConfig) (captain : String)
    (price : Int) (ts : String) (shuffle : List String → List String)
    (s : RoomState) (h : currentFalsy s.current = true) :
    assign_player cfg captain price ts shuffle s = (s, .error .noSelection) := by
  unfold assign_player
  rw [h]
  rfl

theorem assign_eq_invalidCaptain (cfg : AuctionConfig) (captain : String)
    (price : Int) (ts : String) (shuffle : List String → List String)
    (s : RoomState) (h1 : currentFalsy s.current = false)
    (h2 : captain = "" ∨ captain ∉ cfg.captains) :
    assign_player cfg captain price ts shuffle s = (s, .error .invalidCaptain) := by
  unfold assign_player
  rw [h1]
  simp only [Bool.false_eq_true, if_false, if_pos h2]

theorem assign_eq_priceBelowMinimum (cfg : AuctionConfig) (captain : String)
    (price : Int) (ts : String) (shuffle : List String → List String)
    (s : RoomState) (h1 : currentFalsy s.current = false)
    (h2 : ¬(captain = "" ∨ captain ∉ cfg.captains))
    (h3 : price < cfg.base_price) :
    assign_player cfg captain price ts shuffle s = (s, .error .priceBelowMinimum) := by
  unfold assign_player
  rw [h1]
  simp only [Bool.false_eq_true, if_false, if_neg h2, if_pos h3]

theorem assign_eq_keyErrorBalance (cfg : AuctionConfig) (captain : String)
    (price : Int) (ts : String) (shuffle : List String → List String)
    (s : RoomState) (h1 : currentFalsy s.current = false)
    (h2 : ¬(captain = "" ∨ captain ∉ cfg.captains))
    (h3 : ¬price < cfg.base_price) (h4 : lookupA s.balances captain = none) :
    assign_player cfg captain price ts shuffle s = (s, .error .keyError) := by
  unfold assign_player
  rw [h1]
  simp only [Bool.false_eq_true, if_false, if_neg h2, if_neg h3, h4]

theorem assign_eq_insufficientBalance (cfg : AuctionConfig) (captain : String)
    (price : Int) (ts : String) (shuffle : List String → List String)
    (s : RoomState) (old_balance : Int) (h1 : currentFalsy s.current = false)
    (h2 : ¬(captain = "" ∨ captain ∉ cfg.captains))
    (h3 : ¬price < cfg.base_price)
    (h4 : lookupA s.balances captain = some old_balance)
    (h5 : price > old_balance) :
    assign_player cfg captain price ts shuffle s = (s, .error .insufficientBalance) := by
  unfold assign_player
  rw [h1]
  simp only [Bool.false_eq_true, if_false, if_neg h2, if_neg h3, h4, if_pos h5]

theorem assign_eq_keyErrorTeam (cfg : AuctionConfig) (captain : String)
    (price : Int) (ts : String) (shuffle : List String → List String)
    (s : RoomState) (old_balance : Int) (h1 : currentFalsy s.current = false)
    (h2 : ¬(captain = "" ∨ captain ∉ cfg.captains))
    (h3 : ¬price < cfg.base_price)
    (h4 : lookupA s.balances captain = some old_balance)
    (h5 : ¬price > old_balance) (h6 : lookupA s.teams captain = none) :
    assign_player cfg captain price ts shuffle s =
      ({ s with balances := updateA s.balances captain (old_balance - price) },
       .error .keyError) := by
  unfold assign_player
  rw [h1]
  simp only [Bool.false_eq_true, if_false, if_neg h2, if_neg h3, h4, if_neg h5, h6]

theorem assign_eq_ok (cfg : AuctionConfig) (captain : String)
    (price : Int) (ts : String) (shuffle : List String → List String)
    (s : RoomState) (old_balance : Int) (roster : List TeamEntry)
    (h1 : currentFalsy s.current = false)
    (h2 : ¬(captain = "" ∨ captain ∉ cfg.captains))
    (h3 : ¬price < cfg.base_price)
    (h4 : lookupA s.balances captain = some old_balance)
    (h5 : ¬price > old_balance) (h6 : lookupA s.teams captain = some roster) :
    assign_player cfg captain price ts shuffle s =
      (recycle shuffle
        (assignApply captain price ts old_balance roster ((s.current).getD "") s),
       .ok { success := true, current := none,
             balances := (recycle shuffle
               (assignApply captain price ts old_balance roster
                 ((s.current).getD "") s)).balances,
             teams := (recycle shuffle
               (assignApply captain price ts old_balance roster
                 ((s.current).getD "") s)).teams,
             remaining := (recycle shuffle
               (assignApply captain price ts old_balance roster
                 ((s.current).getD "") s)).remaining,
             remainingCount := (recycle shuffle
               (assignApply captain price ts old_balance roster
                 ((s.current).getD "") s)).remaining.length,
             skippedCount := (recycle shuffle
               (assignApply captain price ts old_balance roster
                 ((s.current).getD "") s)).skipped.length,
             lastAssignment := (recycle shuffle
               (assignApply captain price ts old_balance roster
                 ((s.current).getD "") s)).last_assignment }) := by
  unfold assign_player
  rw [h1]
  simp only [Bool.false_eq_true, if_false, if_neg h2, if_neg h3, h4, if_neg h5, h6]

theorem WF_recycle (cfg : AuctionConfig) (shuffle : List String → List String)
    (s : RoomState) (hsh : permFn shuffle) (h : WF cfg s) :
    WF cfg (recycle shuffle s) := by
  unfold recycle
  split
  · exact ⟨h.balKeys, h.teamKeys,
      fun p hp => h.skipSub p ((hsh s.skipped).mem_iff.mp hp),
      fun p hp => absurd hp (List.not_mem_nil p),
      h.curSub, h.teamSub, h.conserv, h.isInit⟩
  · exact h

theorem WF_advance (cfg : AuctionConfig) (idx : Nat) (s : RoomState)
    (h : WF cfg s) : WF cfg (advance idx s) := by
  unfold advance
  split
  · rename_i hne
    exact ⟨h.balKeys, h.teamKeys, h.remSub, h.skipSub,
      fun p hp => h.remSub p ((Option.some.inj hp) ▸ drawFrom_mem s.remaining idx hne),
      h.teamSub, h.conserv, h.isInit⟩
  · exact ⟨h.balKeys, h.teamKeys, h.remSub, h.skipSub,
      fun p hp => absurd hp (by simp),
      h.teamSub, h.conserv, h.isInit⟩

theorem WF_pick (cfg : AuctionConfig) (shuffle : List String → List String)
    (idx : Nat) (s : RoomState) (hsh : permFn shuffle) (h : WF cfg s) :
    WF cfg (pick_player shuffle idx s).1 := by
  cases hc : s.current with
  | some c =>
    rw [pick_eq_alreadySelected shuffle idx s (by simp [hc])]
    exact h
  | none =>
    have h1 := WF_recycle cfg shuffle s hsh h
    by_cases hre : (recycle shuffle s).remaining = []
    · rw [pick_eq_poolExhausted shuffle idx s hc hre]
      exact h1
    · rw [pick_eq_ok shuffle idx s hc hre]
      exact ⟨h1.balKeys, h1.teamKeys, h1.remSub, h1.skipSub,
        fun p hp => h1.remSub p
          ((Option.some.inj hp) ▸ drawFrom_mem (recycle shuffle s).remaining idx hre),
        h1.teamSub, h1.conserv, h1.isInit⟩

theorem WF_skipMid (cfg : AuctionConfig) (s : RoomState) (cur : String)
    (hc : s.current = some cur) (h : WF cfg s) : WF cfg (skipMid s cur) := by
  refine ⟨h.balKeys, h.teamKeys, ?_, ?_, h.curSub, h.teamSub, h.conserv, h.isInit⟩
  · intro p hp
    exact h.remSub p (removeCurrent_subset s.remaining cur p hp)
  · intro p hp
    rcases addSkipped_subset s.skipped cur p hp with h1 | h1
    · exact h.skipSub p h1
    · exact h1 ▸ h.curSub cur hc

theorem WF_skip (cfg : AuctionConfig) (shuffle : List String → List String)
    (idx : Nat) (s : RoomState) (hsh : permFn shuffle) (h : WF cfg s) :
    WF cfg (skip_player shuffle idx s).1 := by
  cases hc : s.current with
  | none =>
    rw [skip_eq_noSelection shuffle idx s hc]
    exact h
  | some cur =>
    rw [skip_eq_ok shuffle idx s cur hc]
    exact WF_advance cfg idx _
      (WF_recycle cfg shuffle _ hsh (WF_skipMid cfg s cur hc h))

theorem WF_assign (cfg : AuctionConfig) (captain : String) (price : Int)
    (ts : String) (shuffle : List String → List String) (s : RoomState)
    (hnd : cfg.captains.Nodup) (hsh : permFn shuffle) (h : WF cfg s) :
    WF cfg (assign_player cfg captain price ts shuffle s).1 := by
  by_cases h1 : currentFalsy s.current = true
  · rw [assign_eq_noSelection cfg captain price ts shuffle s h1]
    exact h
  · have h1f : currentFalsy s.current = false := by simpa using h1
    by_cases h2 : captain = "" ∨ captain ∉ cfg.captains
    · rw [assign_eq_invalidCaptain cfg captain price ts shuffle s h1f h2]
      exact h
    · by_cases h3 : price < cfg.base_price
      · rw [assign_eq_priceBelowMinimum cfg captain price ts shuffle s h1f h2 h3]
        exact h
      · have h2' := h2
        push_neg at h2'
        have hmemB : captain ∈ s.balances.map (fun q => q.1) :=
          h.balKeys.symm ▸ h2'.2
        obtain ⟨bal, hbal⟩ := lookupA_eq_some_of_mem_keys captain s.balances hmemB
        by_cases h5 : price > bal
        · rw [assign_eq_insufficientBalance cfg captain price ts shuffle s bal
            h1f h2 h3 hbal h5]
          exact h
        · have hmemT : captain ∈ s.teams.map (fun q => q.1) :=
            h.teamKeys.symm ▸ h2'.2
          obtain ⟨roster, hteam⟩ := lookupA_eq_some_of_mem_keys captain s.teams hmemT
          rw [assign_eq_ok cfg captain price ts shuffle s bal roster
            h1f h2 h3 hbal h5 hteam]
          obtain ⟨p, hp, hpne⟩ : ∃ p, s.current = some p ∧ p ≠ "" := by
            cases hcs : s.current with
            | none => rw [hcs] at h1f; simp [currentFalsy] at h1f
            | some q =>
              refine ⟨q, rfl, ?_⟩
              rw [hcs] at h1f
              simpa [currentFalsy] using h1f
          have hkeysndB : (s.balances.map (fun q => q.1)).Nodup := by
            rw [h.balKeys]; exact hnd
          have hkeysndT : (s.teams.map (fun q => q.1)).Nodup := by
            rw [h.teamKeys]; exact hnd
          apply WF_recycle cfg shuffle _ hsh
          refine ⟨?_, ?_, ?_, h.skipSub, ?_, ?_, ?_, h.isInit⟩
          · exact (keys_updateA captain _ s.balances).trans h.balKeys
          · exact (keys_updateA captain _ s.teams).trans h.teamKeys
          · intro q hq
            exact h.remSub q (removeCurrent_subset s.remaining _ q hq)
          · intro q hq
            exact Option.noConfusion hq
          · intro t ht e he
            rcases mem_updateA s.teams captain _ t ht with h6 | h6
            · rw [h6] at he
              dsimp only at he
              rcases List.mem_append.mp he with h7 | h7
              · exact h.teamSub (captain, roster)
                  (mem_of_lookupA captain roster s.teams hteam) e h7
              · simp only [List.mem_singleton] at h7
                rw [h7]
                show (s.current).getD "" ∈ cfg.roster
                rw [hp]
                exact h.curSub p hp
            · exact h.teamSub t h6 e he
          · show totalBalances _ + totalPrices _ = _
            unfold totalBalances totalPrices assignApply
            dsimp only
            rw [sum_map_updateA (fun x => x) captain bal (bal - price)
                  s.balances hkeysndB hbal,
                sum_map_updateA (fun es => (es.map (fun e => e.price)).sum)
                  captain roster _ s.teams hkeysndT hteam]
            have hc := h.conserv
            unfold totalBalances totalPrices at hc
            simp only [List.map_append, List.sum_append, List.map_cons,
              List.sum_cons, List.map_nil, List.sum_nil]
            linarith

theorem reset_eq_freshRoom (cfg : AuctionConfig) (s : RoomState) :
    reset_auction cfg s = { freshRoom cfg with last_assignment := s.last_assignment } := by
  unfold reset_auction freshRoom
  simp [List.map_map]

theorem WF_freshRoom (cfg : AuctionConfig) : WF cfg (freshRoom cfg) := by
  refine ⟨keys_map_pair _ _, keys_map_pair _ _, fun p hp => hp, ?_, ?_, ?_, ?_, rfl⟩
  · intro p hp
    exact absurd hp (List.not_mem_nil p)
  · intro p hp
    exact Option.noConfusion hp
  · intro t ht e he
    rcases List.mem_map.mp ht with ⟨c, hcm, hce⟩
    rw [← hce] at he
    simp at he
  · show totalBalances (freshRoom cfg) + totalPrices (freshRoom cfg) = _
    unfold totalBalances totalPrices freshRoom
    rw [List.map_map, List.map_map]
    simp only [Function.comp_def, List.map_nil, List.sum_nil]
    rw [sum_map_const_int, sum_map_const_int]
    ring

theorem WF_reset (cfg : AuctionConfig) (s : RoomState) :
    WF cfg (reset_auction cfg s) := by
  rw [reset_eq_freshRoom]
  have h := WF_freshRoom cfg
  exact ⟨h.balKeys, h.teamKeys, h.remSub, h.skipSub, h.curSub, h.teamSub,
    h.conserv, h.isInit⟩

/-! ### World-level preservation -/

theorem restoreRoom_snapOf (s : RoomState) (h : s.initialized = true) :
    restoreRoom (snapOf s) = s := by
  cases s with
  | mk r c b t sk la i =>
    cases h
    rfl

theorem snapOf_restoreRoom (b : Snap) : snapOf (restoreRoom b) = b := rfl

theorem WFw_save (cfg : AuctionConfig) (w : World) (hw : WFw cfg w) :
    WFw cfg (save_auction_state w) := by
  refine ⟨hw.room, ?_, ?_⟩
  · intro b hb
    simp only [save_auction_state] at hb
    have hbe := Option.some.inj hb
    rw [← hbe]
    show WF cfg (restoreRoom (snapOf w.room))
    rw [restoreRoom_snapOf w.room hw.room.isInit]
    exact hw.room
  · intro b hb
    simp only [save_auction_state] at hb
    split at hb
    · exact hw.primarySlot b hb
    · exact hw.backupSlot b hb

theorem initialize_id (cfg : AuctionConfig) (w : World)
    (hnd : cfg.captains.Nodup) (hw : WFw cfg w) :
    initialize_auction cfg w = w := by
  unfold initialize_auction
  rw [if_pos hw.room.isInit, reconcileSync_eq_self cfg w.room hnd hw.room]

theorem WFw_pick_route (cfg : AuctionConfig) (shuffle : List String → List String)
    (idx : Nat) (w : World) (hnd : cfg.captains.Nodup) (hsh : permFn shuffle)
    (hw : WFw cfg w) : WFw cfg (pick_route cfg shuffle idx w) := by
  unfold pick_route
  rw [initialize_id cfg w hnd hw]
  have hWFs := WF_pick cfg shuffle idx w.room hsh hw.room
  cases hpk : pick_player shuffle idx w.room with
  | mk s r =>
    rw [hpk] at hWFs
    cases r with
    | ok v => exact WFw_save cfg _ ⟨hWFs, hw.primarySlot, hw.backupSlot⟩
    | error e => exact ⟨hWFs, hw.primarySlot, hw.backupSlot⟩

theorem WFw_skip_route (cfg : AuctionConfig) (shuffle : List String → List String)
    (idx : Nat) (w : World) (hnd : cfg.captains.Nodup) (hsh : permFn shuffle)
    (hw : WFw cfg w) : WFw cfg (skip_route cfg shuffle idx w) := by
  unfold skip_route
  rw [initialize_id cfg w hnd hw]
  have hWFs := WF_skip cfg shuffle idx w.room hsh hw.room
  cases hpk : skip_player shuffle idx w.room with
  | mk s r =>
    rw [hpk] at hWFs
    cases r with
    | ok v => exact WFw_save cfg _ ⟨hWFs, hw.primarySlot, hw.backupSlot⟩
    | error e => exact ⟨hWFs, hw.primarySlot, hw.backupSlot⟩

theorem WFw_assign_route (cfg : AuctionConfig) (captain : String) (price : Int)
    (ts : String) (shuffle : List String → List String) (w : World)
    (hnd : cfg.captains.Nodup) (hsh : permFn shuffle) (hw : WFw cfg w) :
    WFw cfg (assign_route cfg captain price ts shuffle w) := by
  unfold assign_route
  rw [initialize_id cfg w hnd hw]
  have hWFs := WF_assign cfg captain price ts shuffle w.room hnd hsh hw.room
  cases hpk : assign_player cfg captain price ts shuffle w.room with
  | mk s r =>
    rw [hpk] at hWFs
    cases r with
    | ok v => exact WFw_save cfg _ ⟨hWFs, hw.primarySlot, hw.backupSlot⟩
    | error e => exact ⟨hWFs, hw.primarySlot, hw.backupSlot⟩

theorem WFw_reset_route (cfg : AuctionConfig) (w : World) (hw : WFw cfg w) :
    WFw cfg (reset_route cfg w) :=
  WFw_save cfg _ ⟨WF_reset cfg w.room, hw.primarySlot, hw.backupSlot⟩

theorem WFw_undo_route (cfg : AuctionConfig) (w : World)
    (hnd : cfg.captains.Nodup) (hw : WFw cfg w) :
    WFw cfg (undo_route cfg w) := by
  unfold undo_route undo_last_action
  rw [initialize_id cfg w hnd hw]
  cases hb : w.backup with
  | none => exact hw
  | some b =>
    have hwb : WF cfg (restoreRoom b) := hw.backupSlot b hb
    apply WFw_save
    refine ⟨hwb, ?_, ?_⟩
    · intro b1 hb1
      have hbe := Option.some.inj hb1
      rw [← hbe]
      exact hw.backupSlot b hb
    · intro b1 hb1
      exact Option.noConfusion hb1

theorem WFw_applyOp (cfg : AuctionConfig) (op : Op) (w : World)
    (hnd : cfg.captains.Nodup) (hop : op.ok) (hw : WFw cfg w) :
    WFw cfg (applyOp cfg op w) := by
  cases op with
  | init =>
    show WFw cfg (initialize_auction cfg w)
    rw [initialize_id cfg w hnd hw]
    exact hw
  | pick f idx => exact WFw_pick_route cfg f idx w hnd hop hw
  | skip f idx => exact WFw_skip_route cfg f idx w hnd hop hw
  | assign c p t f => exact WFw_assign_route cfg c p t f w hnd hop hw
  | reset => exact WFw_reset_route cfg w hw
  | undo => exact WFw_undo_route cfg w hnd hw

theorem WFw_runOps (cfg : AuctionConfig) (hnd : cfg.captains.Nodup) :
    ∀ (ops : List Op) (w : World), (∀ op ∈ ops, op.ok) → WFw cfg w →
      WFw cfg (runOps cfg ops w)
  | [], w, _, hw => hw
  | op :: ops, w, hok, hw => by
    show WFw cfg (runOps cfg ops (applyOp cfg op w))
    exact WFw_runOps cfg hnd ops (applyOp cfg op w)
      (fun o ho => hok o (List.mem_cons_of_mem op ho))
      (WFw_applyOp cfg op w hnd (hok op (List.mem_cons_self op ops)) hw)

/-! ### The fresh bootstrap -/

theorem bootstrapReconcile_fresh (cfg : AuctionConfig)
    (hnd : cfg.captains.Nodup) :
    bootstrapReconcile cfg (freshStateFields cfg initialRoomState)
      = freshStateFields cfg initialRoomState := by
  have hrem1 : cfg.roster.filter (fun p => decide (p ∈ cfg.roster)) = cfg.roster :=
    List.filter_eq_self.mpr (fun a ha => by simpa using ha)
  unfold bootstrapReconcile freshStateFields initialRoomState
  dsimp only
  rw [hrem1]
  simp only [RoomState.mk.injEq]
  refine ⟨?_, rfl, ?_, ?_, trivial, trivial, trivial⟩
  · rw [List.filter_eq_nil_iff.mpr (fun p hp => by simp [hp]), List.append_nil]
  · apply foldl_id
    intro c hc
    have hl := lookupA_map_const cfg.initial_points c cfg.captains hc
    rw [hl]
    simp
  · apply foldl_id
    intro c hc
    have hl := lookupA_map_const ([] : List TeamEntry) c cfg.captains hc
    rw [hl]
    show setA _ c (([] : List TeamEntry).filter _) = _
    rw [List.filter_nil]
    unfold setA
    rw [hl]
    simp only [Option.isSome_some, if_true]
    apply updateA_eq_self
    · rw [keys_map_pair]
      exact hnd
    · exact hl

theorem freshBootstrap_eq (cfg : AuctionConfig) (hnd : cfg.captains.Nodup) :
    freshBootstrap cfg =
      { room := freshRoom cfg, primary := some (snapOf (freshRoom cfg)),
        backup := none } := by
  unfold freshBootstrap initialize_auction
  rw [if_neg (by simp [initialRoomState])]
  show save_auction_state
      { room := { bootstrapReconcile cfg (freshStateFields cfg initialRoomState)
                  with initialized := true },
        primary := none, backup := none } = _
  rw [bootstrapReconcile_fresh cfg hnd]
  rfl

theorem WFw_freshBootstrap (cfg : AuctionConfig) (hnd : cfg.captains.Nodup) :
    WFw cfg (freshBootstrap cfg) := by
  rw [freshBootstrap_eq cfg hnd]
  refine ⟨WF_freshRoom cfg, ?_, ?_⟩
  · intro b hb
    have hbe := Option.some.inj hb
    rw [← hbe]
    show WF cfg (restoreRoom (snapOf (freshRoom cfg)))
    rw [restoreRoom_snapOf _ rfl]
    exact WF_freshRoom cfg
  · intro b hb
    exact Option.noConfusion hb

/-! ### Further helper lemmas for the claim theorems -/

theorem removeCurrent_eq_erase (rem : List String) (cur : String) :
    removeCurrent rem cur = rem.erase cur := by
  unfold removeCurrent
  split
  · rfl
  · rename_i h
    exact (List.erase_of_not_mem h).symm

theorem mem_addSkipped_self (sk : List String) (cur : String) :
    cur ∈ addSkipped sk cur := by
  unfold addSkipped
  split
  · assumption
  · simp

theorem addSkipped_ne_nil (sk : List String) (cur : String) :
    addSkipped sk cur ≠ [] := by
  intro h
  have := mem_addSkipped_self sk cur
  rw [h] at this
  exact absurd this (List.not_mem_nil cur)

theorem recycle_pos (shuffle : List String → List String) (s : RoomState)
    (h : s.remaining = [] ∧ s.skipped ≠ []) :
    recycle shuffle s = { s with remaining := shuffle s.skipped, skipped := [] } := by
  unfold recycle
  rw [if_pos h]

theorem recycle_neg (shuffle : List String → List String) (s : RoomState)
    (h : ¬(s.remaining = [] ∧ s.skipped ≠ [])) :
    recycle shuffle s = s := by
  unfold recycle
  rw [if_neg h]

theorem advance_pos (idx : Nat) (s : RoomState) (h : s.remaining ≠ []) :
    advance idx s = { s with current := some (drawFrom s.remaining idx) } := by
  unfold advance
  rw [if_pos h]

theorem advance_neg (idx : Nat) (s : RoomState) (h : s.remaining = []) :
    advance idx s = { s with current := none } := by
  unfold advance
  rw [if_neg (not_not_intro h)]

theorem drawFrom_indexOf (l : List String) (p : String) (h : p ∈ l) :
    drawFrom l (l.indexOf p) = p := by
  have hlt : l.indexOf p < l.length := List.indexOf_lt_length.mpr h
  unfold drawFrom
  rw [Nat.mod_eq_of_lt hlt, List.getD_eq_getElem?_getD,
    List.getElem?_eq_getElem hlt]
  show l.get ⟨l.indexOf p, hlt⟩ = p
  exact List.indexOf_get hlt

theorem perm_ne_nil (f : List String → List String) (l : List String)
    (hsh : permFn f) (h : l ≠ []) : f l ≠ [] := by
  intro hE
  have hperm := hsh l
  rw [hE] at hperm
  exact h hperm.symm.eq_nil

theorem lookupA_append {α : Type} (k : String) (m : List (String × α)) :
    ∀ (l : List (String × α)),
      lookupA (l ++ m) k = match lookupA l k with
        | some v => some v
        | none => lookupA m k
  | [] => by simp [lookupA_nil]
  | a :: t => by
    rw [List.cons_append, lookupA_cons, lookupA_cons]
    by_cases h : a.1 = k
    · rw [if_pos h, if_pos h]
    · rw [if_neg h, if_neg h]
      exact lookupA_append k m t

theorem mem_keys_of_isSome {α : Type} (k : String) :
    ∀ (l : List (String × α)), (lookupA l k).isSome →
      k ∈ l.map (fun p => p.1)
  | a :: t, h => by
    rw [lookupA_cons] at h
    by_cases hh : a.1 = k
    · simp [hh]
    · rw [if_neg hh] at h
      simp only [List.map_cons, List.mem_cons]
      exact Or.inr (mem_keys_of_isSome k t h)

theorem isSome_lookupA_append_sing {α : Type} (l : List (String × α))
    (k c : String) (v : α) (h : (lookupA l c).isSome ∨ c = k) :
    (lookupA (l ++ [(k, v)]) c).isSome := by
  rw [lookupA_append]
  rcases h with h | h
  · obtain ⟨w, hw⟩ := Option.isSome_iff_exists.mp h
    rw [hw]
    rfl
  · cases hl : lookupA l c
    · rw [h, lookupA_cons]
      simp
    · rfl

theorem isSome_setA_self {α : Type} (t : List (String × α)) (k : String) (v : α) :
    (lookupA (setA t k v) k).isSome := by
  unfold setA
  split
  · rename_i h
    rw [lookupA_updateA_self k v t h]
    rfl
  · exact isSome_lookupA_append_sing t k k v (Or.inr rfl)

theorem isSome_setA_of_isSome {α : Type} (t : List (String × α)) (k c : String)
    (v : α) (h : (lookupA t c).isSome) : (lookupA (setA t k v) c).isSome := by
  unfold setA
  split
  · by_cases hck : c = k
    · rw [hck]
      rw [hck] at h
      rw [lookupA_updateA_self k v t (by assumption)]
      rfl
    · have hm : c ∈ t.map (fun p => p.1) := mem_keys_of_isSome c t h
      apply lookupA_isSome_of_mem_keys
      rw [keys_updateA]
      exact hm
  · exact isSome_lookupA_append_sing t k c v (Or.inl h)

theorem isSome_foldl_setA {α : Type} (f : List (String × α) → String → α) :
    ∀ (caps : List String) (t : List (String × α)) (c : String),
      (c ∈ caps ∨ (lookupA t c).isSome) →
      (lookupA (caps.foldl (fun t c => setA t c (f t c)) t) c).isSome
  | [], t, c, h => by
    rcases h with h | h
    · exact absurd h (List.not_mem_nil c)
    · exact h
  | c0 :: rest, t, c, h => by
    rw [List.foldl_cons]
    apply isSome_foldl_setA f rest (setA t c0 (f t c0)) c
    rcases h with h | h
    · rcases List.mem_cons.mp h with h1 | h1
      · exact Or.inr (h1 ▸ isSome_setA_self t c0 (f t c0))
      · exact Or.inl h1
    · exact Or.inr (isSome_setA_of_isSome t c0 c (f t c0) h)

theorem isSome_foldl_ensure (v : Int) :
    ∀ (caps : List String) (b : List (String × Int)) (c : String),
      (c ∈ caps ∨ (lookupA b c).isSome) →
      (lookupA (caps.foldl
        (fun b c => if (lookupA b c).isSome then b else b ++ [(c, v)]) b) c).isSome
  | [], b, c, h => by
    rcases h with h | h
    · exact absurd h (List.not_mem_nil c)
    · exact h
  | c0 :: rest, b, c, h => by
    rw [List.foldl_cons]
    apply isSome_foldl_ensure v rest _ c
    by_cases hb : (lookupA b c0).isSome
    · rw [if_pos hb]
      rcases h with h | h
      · rcases List.mem_cons.mp h with h1 | h1
        · exact Or.inr (h1 ▸ hb)
        · exact Or.inl h1
      · exact Or.inr h
    · rw [if_neg hb]
      rcases h with h | h
      · rcases List.mem_cons.mp h with h1 | h1
        · exact Or.inr (isSome_lookupA_append_sing b c0 c v (Or.inr h1))
        · exact Or.inl h1
      · exact Or.inr (isSome_lookupA_append_sing b c0 c v (Or.inl h))

theorem bootstrapReconcile_ensures (cfg : AuctionConfig) (s : RoomState)
    (c : String) (hc : c ∈ cfg.captains) :
    (lookupA (bootstrapReconcile cfg s).balances c).isSome
    ∧ (lookupA (bootstrapReconcile cfg s).teams c).isSome := by
  constructor
  · exact isSome_foldl_ensure cfg.initial_points cfg.captains s.balances c (Or.inl hc)
  · exact isSome_foldl_setA
      (fun t c => ((lookupA t c).getD []).filter (fun e => e.player ∈ cfg.roster))
      cfg.captains s.teams c (Or.inl hc)

/-! ### Claim theorems -/

/-- C1: after every engine operation on a room (initialize, pick, skip,
assign, reset, undo), the sum of all captains' balances plus the sum of all
prices recorded across all team entries equals `initial_points` times the
number of configured captains, for any sequence of operations starting from a
fresh bootstrap.  The balance and team dictionaries are keyed exactly by the
configured captains throughout, so the totals below range over exactly the
captains' entries. -/
theorem C1_conservation (cfg : AuctionConfig) (hnd : cfg.captains.Nodup)
    (ops : List Op) (hok : ∀ op ∈ ops, op.ok) :
    (runOps cfg ops (freshBootstrap cfg)).room.balances.map (fun p => p.1)
        = cfg.captains
    ∧ (runOps cfg ops (freshBootstrap cfg)).room.teams.map (fun p => p.1)
        = cfg.captains
    ∧ totalBalances (runOps cfg ops (freshBootstrap cfg)).room
        + totalPrices (runOps cfg ops (freshBootstrap cfg)).room
      = cfg.initial_points * cfg.captains.length := by
  have h := (WFw_runOps cfg hnd ops (freshBootstrap cfg) hok
    (WFw_freshBootstrap cfg hnd)).room
  exact ⟨h.balKeys, h.teamKeys, h.conserv⟩

/-- Witness for C1 at a concrete sequence: pick then assign for 50 points. -/
theorem C1_conservation_witness :
    (runOps cfgEx [Op.pick id 0, Op.assign "C1" 50 "t0" id]
        (freshBootstrap cfgEx)).room.balances.map (fun p => p.1)
      = cfgEx.captains
    ∧ (runOps cfgEx [Op.pick id 0, Op.assign "C1" 50 "t0" id]
        (freshBootstrap cfgEx)).room.teams.map (fun p => p.1)
      = cfgEx.captains
    ∧ totalBalances (runOps cfgEx [Op.pick id 0, Op.assign "C1" 50 "t0" id]
          (freshBootstrap cfgEx)).room
        + totalPrices (runOps cfgEx [Op.pick id 0, Op.assign "C1" 50 "t0" id]
          (freshBootstrap cfgEx)).room
      = cfgEx.initial_points * cfgEx.captains.length :=
  C1_conservation cfgEx (by decide) [Op.pick id 0, Op.assign "C1" 50 "t0" id]
    (by
      intro op hop
      rcases List.mem_cons.mp hop with h | h
      · rw [h]
        exact fun l => List.Perm.refl l
      · rcases List.mem_cons.mp h with h1 | h1
        · rw [h1]
          exact fun l => List.Perm.refl l
        · exact absurd h1 (List.not_mem_nil op))

/-- C2: `assign` fails with `NoSelection` when nothing is selected, with
`UnknownCaptain` when the captain is not configured, with `PriceBelowMinimum`
when the price is below the minimum, and with `InsufficientBalance` when the
price exceeds the captain's balance (checked in that order); in every such
failure case the returned state is exactly the pre-call state. -/
theorem C2_assign_failures (cfg : AuctionConfig) (captain : String)
    (price : Int) (ts : String) (shuffle : List String → List String)
    (s : RoomState) :
    (s.current = none →
       assign_player cfg captain price ts shuffle s = (s, .error .noSelection))
    ∧ (currentFalsy s.current = false → captain ∉ cfg.captains →
       assign_player cfg captain price ts shuffle s = (s, .error .invalidCaptain))
    ∧ (currentFalsy s.current = false →
       ¬(captain = "" ∨ captain ∉ cfg.captains) → price < cfg.base_price →
       assign_player cfg captain price ts shuffle s
         = (s, .error .priceBelowMinimum))
    ∧ (∀ bal, currentFalsy s.current = false →
       ¬(captain = "" ∨ captain ∉ cfg.captains) → ¬price < cfg.base_price →
       lookupA s.balances captain = some bal → price > bal →
       assign_player cfg captain price ts shuffle s
         = (s, .error .insufficientBalance)) := by
  refine ⟨?_, ?_, ?_, ?_⟩
  · intro h
    exact assign_eq_noSelection cfg captain price ts shuffle s (by rw [h]; rfl)
  · intro h1 h2
    exact assign_eq_invalidCaptain cfg captain price ts shuffle s h1 (Or.inr h2)
  · intro h1 h2 h3
    exact assign_eq_priceBelowMinimum cfg captain price ts shuffle s h1 h2 h3
  · intro bal h1 h2 h3 h4 h5
    exact assign_eq_insufficientBalance cfg captain price ts shuffle s bal
      h1 h2 h3 h4 h5

/-- Witness for C2: captain with balance 10, `assign(price=15)` fails with
`InsufficientBalance` and the state is returned unchanged. -/
theorem C2_assign_failures_witness :
    assign_player cfgEx "C1" 15 "t" id sLow = (sLow, .error .insufficientBalance) :=
  (C2_assign_failures cfgEx "C1" 15 "t" id sLow).2.2.2 10
    (by decide) (by decide) (by decide) (by decide) (by decide)

/-- C5: when nothing is selected and the (post-recycle) pool is non-empty,
pick succeeds, `current` becomes the drawn element of `remaining`, the drawn
element is still a member of `remaining`, and `remaining` is exactly the
pre-draw pool (the draw removes nothing). -/
theorem C5_pick_draw (shuffle : List String → List String) (idx : Nat)
    (s : RoomState) (hcur : s.current = none)
    (hne : (recycle shuffle s).remaining ≠ []) :
    (pick_player shuffle idx s).1.current
        = some (drawFrom (recycle shuffle s).remaining idx)
    ∧ drawFrom (recycle shuffle s).remaining idx
        ∈ (pick_player shuffle idx s).1.remaining
    ∧ (pick_player shuffle idx s).1.remaining = (recycle shuffle s).remaining
    ∧ ∃ r, (pick_player shuffle idx s).2 = Except.ok r := by
  rw [pick_eq_ok shuffle idx s hcur hne]
  exact ⟨rfl, drawFrom_mem _ idx hne, rfl, _, rfl⟩

/-- Witness for C5 on a concrete state. -/
theorem C5_pick_draw_witness :
    (pick_player id 0 { sOk with current := none }).1.current
        = some (drawFrom (recycle id { sOk with current := none }).remaining 0)
    ∧ drawFrom (recycle id { sOk with current := none }).remaining 0
        ∈ (pick_player id 0 { sOk with current := none }).1.remaining
    ∧ (pick_player id 0 { sOk with current := none }).1.remaining
        = (recycle id { sOk with current := none }).remaining
    ∧ ∃ r, (pick_player id 0 { sOk with current := none }).2 = Except.ok r :=
  C5_pick_draw id 0 { sOk with current := none } (by decide) (by decide)

/-- C7: pick fails with `AlreadySelected` whenever a player is selected and
with `PoolExhausted` when remaining and skipped are both empty; in both cases
the state is returned unchanged.  For a permutation shuffle, the pool being
empty after the recycle step is equivalent to both pools being empty
beforehand. -/
theorem C7_pick_failures (shuffle : List String → List String) (idx : Nat)
    (s : RoomState) :
    (∀ c, s.current = some c →
       pick_player shuffle idx s = (s, .error .alreadySelected))
    ∧ (s.current = none → s.remaining = [] → s.skipped = [] →
       pick_player shuffle idx s = (s, .error .poolExhausted))
    ∧ (permFn shuffle → s.current = none →
       ((recycle shuffle s).remaining = [] ↔ s.remaining = [] ∧ s.skipped = [])) := by
  refine ⟨?_, ?_, ?_⟩
  · intro c h
    exact pick_eq_alreadySelected shuffle idx s (by rw [h]; rfl)
  · intro h1 h2 h3
    have hrec : recycle shuffle s = s :=
      recycle_neg shuffle s (fun hc => hc.2 h3)
    rw [pick_eq_poolExhausted shuffle idx s h1 (by rw [hrec]; exact h2), hrec]
  · intro hsh _
    constructor
    · intro h
      by_cases hc : s.remaining = [] ∧ s.skipped ≠ []
      · rw [recycle_pos shuffle s hc] at h
        exact absurd h (perm_ne_nil shuffle s.skipped hsh hc.2)
      · rw [recycle_neg shuffle s hc] at h
        refine ⟨h, ?_⟩
        by_contra hsk
        exact hc ⟨h, hsk⟩
    · intro h
      rw [recycle_neg shuffle s (fun hc => hc.2 h.2)]
      exact h.1

/-- Witness for C7: a selected player makes pick fail with state unchanged,
and the recycle-equivalence holds at a concrete state. -/
theorem C7_pick_failures_witness :
    pick_player id 0 sOk = (sOk, .error .alreadySelected)
    ∧ pick_player id 0 sEmptyPool = (sEmptyPool, .error .poolExhausted)
    ∧ ((recycle id sEmptyPool).remaining = []
       ↔ sEmptyPool.remaining = [] ∧ sEmptyPool.skipped = []) :=
  ⟨(C7_pick_failures id 0 sOk).1 "P1" (by decide),
   (C7_pick_failures id 0 sEmptyPool).2.1 (by decide) (by decide) (by decide),
   (C7_pick_failures id 0 sEmptyPool).2.2 (fun l => List.Perm.refl l) (by decide)⟩

/-- C3: when a (non-empty-named) player is selected, the captain is
configured, and `min_price <= price <= balances[captain]`, assign succeeds
with exactly this effect: the captain's balance entry decreases by `price`,
the record `(player, price)` is appended to the captain's team, the
`lastAssignment` snapshot (player, captain, price, pre/post balance,
timestamp) is stored, `current` becomes none, the player is erased from
`remaining`; afterwards, if `remaining` is empty and `skipped` non-empty,
`skipped` is recycled into `remaining` as a permutation and emptied. -/
theorem C3_assign_success (cfg : AuctionConfig) (captain : String)
    (price : Int) (ts : String) (shuffle : List String → List String)
    (s : RoomState) (p : String) (bal : Int) (roster : List TeamEntry)
    (hsh : permFn shuffle) (hcur : s.current = some p) (hp : p ≠ "")
    (hcap : captain ∈ cfg.captains) (hcapne : captain ≠ "")
    (hbal : lookupA s.balances captain = some bal)
    (hteam : lookupA s.teams captain = some roster)
    (hmin : cfg.base_price ≤ price) (hle : price ≤ bal) :
    lookupA (assign_player cfg captain price ts shuffle s).1.balances captain
        = some (bal - price)
    ∧ lookupA (assign_player cfg captain price ts shuffle s).1.teams captain
        = some (roster ++ [{ player := p, price := price }])
    ∧ (assign_player cfg captain price ts shuffle s).1.last_assignment
        = some { player := p, captain := captain, price := price,
                 old_balance := bal, new_balance := bal - price, timestamp := ts }
    ∧ (assign_player cfg captain price ts shuffle s).1.current = none
    ∧ (s.remaining.erase p = [] ∧ s.skipped ≠ [] →
        (assign_player cfg captain price ts shuffle s).1.remaining.Perm s.skipped
        ∧ (assign_player cfg captain price ts shuffle s).1.skipped = [])
    ∧ (¬(s.remaining.erase p = [] ∧ s.skipped ≠ []) →
        (assign_player cfg captain price ts shuffle s).1.remaining
            = s.remaining.erase p
        ∧ (assign_player cfg captain price ts shuffle s).1.skipped = s.skipped)
    ∧ ∃ r, (assign_player cfg captain price ts shuffle s).2 = Except.ok r := by
  have h1f : currentFalsy s.current = false := by
    rw [hcur]
    simpa [currentFalsy] using hp
  have h2 : ¬(captain = "" ∨ captain ∉ cfg.captains) :=
    not_or.mpr ⟨hcapne, not_not_intro hcap⟩
  have h3 : ¬price < cfg.base_price := not_lt.mpr hmin
  have h5 : ¬price > bal := not_lt.mpr hle
  have hgd : (s.current).getD "" = p := by rw [hcur]; rfl
  rw [assign_eq_ok cfg captain price ts shuffle s bal roster h1f h2 h3 hbal h5
    hteam, hgd]
  refine ⟨?_, ?_, ?_, ?_, ?_, ?_, _, rfl⟩
  · rw [recycle_balances]
    show lookupA (updateA s.balances captain (bal - price)) captain
      = some (bal - price)
    exact lookupA_updateA_self captain (bal - price) s.balances (by rw [hbal]; rfl)
  · rw [recycle_teams]
    show lookupA (updateA s.teams captain
      (roster ++ [{ player := p, price := price }])) captain = _
    exact lookupA_updateA_self captain _ s.teams (by rw [hteam]; rfl)
  · rw [recycle_last_assignment]
    rfl
  · rw [recycle_current]
    rfl
  · intro h
    have hcond : (assignApply captain price ts bal roster p s).remaining = []
        ∧ (assignApply captain price ts bal roster p s).skipped ≠ [] := by
      constructor
      · show removeCurrent s.remaining p = []
        rw [removeCurrent_eq_erase]
        exact h.1
      · exact h.2
    rw [recycle_pos shuffle _ hcond]
    exact ⟨hsh s.skipped, rfl⟩
  · intro h
    have hcond : ¬((assignApply captain price ts bal roster p s).remaining = []
        ∧ (assignApply captain price ts bal roster p s).skipped ≠ []) := by
      intro hc
      apply h
      constructor
      · rw [← removeCurrent_eq_erase]
        exact hc.1
      · exact hc.2
    rw [recycle_neg shuffle _ hcond]
    exact ⟨removeCurrent_eq_erase s.remaining p, rfl⟩

/-- Witness for C3: assign P1 to C1 for 50 points from a fresh-like state. -/
theorem C3_assign_success_witness :
    lookupA (assign_player cfgEx "C1" 50 "t0" id sOk).1.balances "C1"
        = some ((200 : Int) - 50)
    ∧ lookupA (assign_player cfgEx "C1" 50 "t0" id sOk).1.teams "C1"
        = some ([] ++ [{ player := "P1", price := 50 }])
    ∧ (assign_player cfgEx "C1" 50 "t0" id sOk).1.last_assignment
        = some { player := "P1", captain := "C1", price := 50,
                 old_balance := 200, new_balance := (200 : Int) - 50,
                 timestamp := "t0" }
    ∧ (assign_player cfgEx "C1" 50 "t0" id sOk).1.current = none
    ∧ (sOk.remaining.erase "P1" = [] ∧ sOk.skipped ≠ [] →
        (assign_player cfgEx "C1" 50 "t0" id sOk).1.remaining.Perm sOk.skipped
        ∧ (assign_player cfgEx "C1" 50 "t0" id sOk).1.skipped = [])
    ∧ (¬(sOk.remaining.erase "P1" = [] ∧ sOk.skipped ≠ []) →
        (assign_player cfgEx "C1" 50 "t0" id sOk).1.remaining
            = sOk.remaining.erase "P1"
        ∧ (assign_player cfgEx "C1" 50 "t0" id sOk).1.skipped = sOk.skipped)
    ∧ ∃ r, (assign_player cfgEx "C1" 50 "t0" id sOk).2 = Except.ok r :=
  C3_assign_success cfgEx "C1" 50 "t0" id sOk "P1" 200 []
    (fun l => List.Perm.refl l) (by decide) (by decide) (by decide) (by decide)
    (by decide) (by decide) (by decide) (by decide)

/-- C4: skip fails with `NoSelection` when nothing is selected; otherwise it
erases the current player from `remaining`, appends it to `skipped` only if
absent, recycles when the pool empties (with `skipped` cleared and
`remaining` a permutation of it), auto-advances by drawing a new `current`
from the pool when non-empty (else clears it), and returns the prior
current, the new current and the updated counts. -/
theorem C4_skip_behavior (shuffle : List String → List String) (idx : Nat)
    (s : RoomState) (hsh : permFn shuffle) :
    (s.current = none → skip_player shuffle idx s = (s, .error .noSelection))
    ∧ (∀ cur, s.current = some cur →
        removeCurrent s.remaining cur = s.remaining.erase cur
        ∧ addSkipped s.skipped cur
            = (if cur ∈ s.skipped then s.skipped else s.skipped ++ [cur])
        ∧ ((s.remaining.erase cur = [] ∧ addSkipped s.skipped cur ≠ []) →
            (skip_player shuffle idx s).1.remaining.Perm (addSkipped s.skipped cur)
            ∧ (skip_player shuffle idx s).1.skipped = []
            ∧ ∃ q, (skip_player shuffle idx s).1.current = some q
                ∧ q ∈ (skip_player shuffle idx s).1.remaining)
        ∧ (¬(s.remaining.erase cur = [] ∧ addSkipped s.skipped cur ≠ []) →
            (skip_player shuffle idx s).1.remaining = s.remaining.erase cur
            ∧ (skip_player shuffle idx s).1.skipped = addSkipped s.skipped cur
            ∧ (s.remaining.erase cur ≠ [] →
                ∃ q, (skip_player shuffle idx s).1.current = some q
                  ∧ q ∈ (skip_player shuffle idx s).1.remaining)
            ∧ (s.remaining.erase cur = [] →
                (skip_player shuffle idx s).1.current = none))
        ∧ (skip_player shuffle idx s).2
            = Except.ok { current := (skip_player shuffle idx s).1.current,
                          skipped := cur,
                          remaining := (skip_player shuffle idx s).1.remaining,
                          remainingCount :=
                            (skip_player shuffle idx s).1.remaining.length,
                          skippedCount :=
                            (skip_player shuffle idx s).1.skipped.length }) := by
  refine ⟨fun h => skip_eq_noSelection shuffle idx s h, ?_⟩
  intro cur hc
  have hmid : skipMid s cur = { s with remaining := s.remaining.erase cur,
                                       skipped := addSkipped s.skipped cur } := by
    unfold skipMid
    rw [removeCurrent_eq_erase]
  refine ⟨removeCurrent_eq_erase s.remaining cur, rfl, ?_, ?_, ?_⟩
  · intro h
    rw [skip_eq_ok shuffle idx s cur hc, hmid,
      recycle_pos shuffle _ ⟨h.1, h.2⟩]
    have hne : shuffle (addSkipped s.skipped cur) ≠ [] :=
      perm_ne_nil shuffle _ hsh h.2
    rw [advance_pos idx _ hne]
    exact ⟨hsh _, rfl, drawFrom (shuffle (addSkipped s.skipped cur)) idx, rfl,
      drawFrom_mem _ idx hne⟩
  · intro h
    have hne : s.remaining.erase cur ≠ [] := by
      intro he
      exact h ⟨he, addSkipped_ne_nil s.skipped cur⟩
    rw [skip_eq_ok shuffle idx s cur hc, hmid,
      recycle_neg shuffle _ (fun hcnd => h ⟨hcnd.1, hcnd.2⟩),
      advance_pos idx _ hne]
    refine ⟨rfl, rfl, ?_, ?_⟩
    · intro _
      exact ⟨drawFrom (s.remaining.erase cur) idx, rfl, drawFrom_mem _ idx hne⟩
    · intro he
      exact absurd he hne
  · rw [skip_eq_ok shuffle idx s cur hc]

/-- Witness for C4: skipping P1 from a two-player pool erases it from the
pool, records it in `skipped`, and returns the payload. -/
theorem C4_skip_behavior_witness :
    (skip_player id 0 sOk).1.remaining = sOk.remaining.erase "P1"
    ∧ (skip_player id 0 sOk).1.skipped = addSkipped sOk.skipped "P1"
    ∧ (skip_player id 0 sOk).2
        = Except.ok { current := (skip_player id 0 sOk).1.current,
                      skipped := "P1",
                      remaining := (skip_player id 0 sOk).1.remaining,
                      remainingCount := (skip_player id 0 sOk).1.remaining.length,
                      skippedCount := (skip_player id 0 sOk).1.skipped.length } := by
  have h := (C4_skip_behavior id 0 sOk (fun l => List.Perm.refl l)).2 "P1" (by decide)
  have hne : ¬(sOk.remaining.erase "P1" = [] ∧ addSkipped sOk.skipped "P1" ≠ []) := by
    decide
  exact ⟨(h.2.2.2.1 hne).1, (h.2.2.2.1 hne).2.1, h.2.2.2.2⟩

/-- C6: from remaining = [], skipped = [A,B,C], current = none, pick recycles:
current lands in {A,B,C}, skipped becomes [], the pool is a permutation of
{A,B,C}, and in particular the two players other than current are in the
pool. -/
theorem C6_recycle_on_pick (shuffle : List String → List String) (idx : Nat)
    (hsh : permFn shuffle) :
    ∃ q, (pick_player shuffle idx recycleDemoState).1.current = some q
      ∧ q ∈ ["A", "B", "C"]
      ∧ (pick_player shuffle idx recycleDemoState).1.skipped = []
      ∧ (pick_player shuffle idx recycleDemoState).1.remaining.Perm ["A", "B", "C"]
      ∧ ∀ x ∈ ["A", "B", "C"], x ≠ q →
          x ∈ (pick_player shuffle idx recycleDemoState).1.remaining := by
  have hrc := recycle_pos shuffle recycleDemoState
    ⟨rfl, by simp [recycleDemoState]⟩
  have hne : (recycle shuffle recycleDemoState).remaining ≠ [] := by
    rw [hrc]
    exact perm_ne_nil shuffle _ hsh (by simp [recycleDemoState])
  rw [pick_eq_ok shuffle idx recycleDemoState rfl hne, hrc]
  refine ⟨drawFrom (shuffle recycleDemoState.skipped) idx, rfl, ?_, rfl,
    hsh recycleDemoState.skipped, ?_⟩
  · exact (hsh recycleDemoState.skipped).mem_iff.mp
      (drawFrom_mem _ idx (by rw [hrc] at hne; exact hne))
  · intro x hx _
    exact (hsh recycleDemoState.skipped).mem_iff.mpr hx

/-- Witness for C6 with the identity shuffle. -/
theorem C6_recycle_on_pick_witness :
    ∃ q, (pick_player id 0 recycleDemoState).1.current = some q
      ∧ q ∈ ["A", "B", "C"]
      ∧ (pick_player id 0 recycleDemoState).1.skipped = []
      ∧ (pick_player id 0 recycleDemoState).1.remaining.Perm ["A", "B", "C"]
      ∧ ∀ x ∈ ["A", "B", "C"], x ≠ q →
          x ∈ (pick_player id 0 recycleDemoState).1.remaining :=
  C6_recycle_on_pick id 0 (fun l => List.Perm.refl l)

/-- C10: when the skipped player was the last remaining element and so the
pool empties, the recycle puts the just-skipped player back before the new
draw: for some outcome of the draw the same skip call returns the player
that was just skipped. -/
theorem C10_skip_last_recycles (s : RoomState) (p : String)
    (hcur : s.current = some p) (hrem : s.remaining = [p]) :
    ∃ (shuffle : List String → List String) (idx : Nat),
      permFn shuffle
      ∧ (skip_player shuffle idx s).1.current = some p
      ∧ ∃ r, (skip_player shuffle idx s).2 = Except.ok r := by
  refine ⟨id, (addSkipped s.skipped p).indexOf p, fun l => List.Perm.refl l,
    ?_, ?_⟩
  · rw [skip_eq_ok id _ s p hcur]
    have h1 : removeCurrent s.remaining p = [] := by
      rw [removeCurrent_eq_erase, hrem]
      simp
    have hmid : skipMid s p
        = { s with remaining := [], skipped := addSkipped s.skipped p } := by
      unfold skipMid
      rw [h1]
    rw [hmid]
    have hrc : recycle id { s with remaining := ([] : List String),
                                   skipped := addSkipped s.skipped p }
        = { s with remaining := addSkipped s.skipped p, skipped := [] } := by
      rw [recycle_pos id _ ⟨rfl, addSkipped_ne_nil s.skipped p⟩]
      rfl
    rw [hrc, advance_pos _ _ (addSkipped_ne_nil s.skipped p)]
    show some (drawFrom (addSkipped s.skipped p)
      ((addSkipped s.skipped p).indexOf p)) = some p
    rw [drawFrom_indexOf _ p (mem_addSkipped_self s.skipped p)]
  · rw [skip_eq_ok id _ s p hcur]
    exact ⟨_, rfl⟩

/-- Witness for C10 at a concrete last-player state. -/
theorem C10_skip_last_recycles_witness :
    ∃ (shuffle : List String → List String) (idx : Nat),
      permFn shuffle
      ∧ (skip_player shuffle idx lastManState).1.current = some "P1"
      ∧ ∃ r, (skip_player shuffle idx lastManState).2 = Except.ok r :=
  C10_skip_last_recycles lastManState "P1" (by decide) (by decide)

/-- C8 counterexample: two undos in a row do not restore the live state from
before the first undo.  `w8` holds live state `s2Ex` with its snapshot in
the primary slot and the older fresh state in the backup slot; two undos
yield the restored backup state (the same result as a single undo), not
`s2Ex`. -/
theorem C8_counterexample :
    (undo_last_action cfgEx (undo_last_action cfgEx w8).1).1.room
        = restoreRoom (snapOf (freshRoom cfgEx))
    ∧ (undo_last_action cfgEx (undo_last_action cfgEx w8).1).1.room ≠ w8.room := by
  decide

/-- C8 amended: when no backup exists undo fails with NotFound and the state
is unchanged; when a backup `b` exists undo replaces the live state verbatim
with `b` and re-persists (the save moving the primary — which by then holds
`b` — into the backup slot), so the resulting world is
`(restore b, primary = b, backup = b)`; consequently undo is idempotent: a
second undo returns exactly the same world, not the state from before the
first undo.  (The undo handler deletes the primary snapshot before renaming
the backup over it, so the pre-undo state is lost.)  The hypotheses state
that the `initialize_auction` prelude is a no-op on the rooms involved,
which holds for any reconciled room. -/
theorem C8_undo_behavior (cfg : AuctionConfig) (w : World)
    (hInit : initialize_auction cfg w = w) :
    (w.backup = none → undo_last_action cfg w = (w, .error .noBackup))
    ∧ (∀ b, w.backup = some b →
        (undo_last_action cfg w).1
          = { room := restoreRoom b, primary := some b, backup := some b }
        ∧ (undo_last_action cfg w).2 = Except.ok ()
        ∧ (initialize_auction cfg (undo_last_action cfg w).1
              = (undo_last_action cfg w).1 →
            undo_last_action cfg (undo_last_action cfg w).1
              = ((undo_last_action cfg w).1, Except.ok ()))) := by
  constructor
  · intro h
    unfold undo_last_action
    rw [hInit, h]
  · intro b hb
    have h1 : (undo_last_action cfg w).1
        = { room := restoreRoom b, primary := some b, backup := some b } := by
      unfold undo_last_action
      rw [hInit, hb]
      rfl
    have h2 : (undo_last_action cfg w).2 = Except.ok () := by
      unfold undo_last_action
      rw [hInit, hb]
    refine ⟨h1, h2, ?_⟩
    intro hInit2
    rw [h1] at hInit2 ⊢
    unfold undo_last_action
    rw [hInit2]
    rfl

/-- Witness for C8: at the concrete world `w8` the undo restores the backup,
re-persists it into both slots, and a second undo returns the same world. -/
theorem C8_undo_behavior_witness :
    (undo_last_action cfgEx w8).1
      = { room := restoreRoom (snapOf (freshRoom cfgEx)),
          primary := some (snapOf (freshRoom cfgEx)),
          backup := some (snapOf (freshRoom cfgEx)) }
    ∧ (undo_last_action cfgEx w8).2 = Except.ok ()
    ∧ undo_last_action cfgEx (undo_last_action cfgEx w8).1
        = ((undo_last_action cfgEx w8).1, Except.ok ()) := by
  have h := (C8_undo_behavior cfgEx w8 (by decide)).2
    (snapOf (freshRoom cfgEx)) (by decide)
  exact ⟨h.1, h.2.1, h.2.2 (by decide)⟩

/-- C9 counterexample: an already-initialized room missing the newly
configured captain C2 still has no balance and no team entry for C2 after
`initialize_auction` — new captains are not absorbed between requests. -/
theorem C9_counterexample :
    lookupA (initialize_auction cfgEx w9).room.balances "C2" = none
    ∧ (initialize_auction cfgEx w9).room.initialized = true
    ∧ "C2" ∈ cfgEx.captains := by
  decide

/-- C9 amended: only a call on a room whose initialized flag is false
(the bootstrap path) ensures that every configured captain has a balances
entry and a teams entry; a call on an already-initialized room performs only
the roster re-sync (`reconcileSync`: filter `remaining` and the configured
captains' team rosters, clear an invalid `current`) and leaves `balances`
and `skipped` untouched, so captains added to the configuration after
initialization are not absorbed without a reset or re-bootstrap. -/
theorem C9_initialize_reconcile (cfg : AuctionConfig) (w : World) :
    (w.room.initialized = true →
       initialize_auction cfg w = { w with room := reconcileSync cfg w.room }
       ∧ (reconcileSync cfg w.room).balances = w.room.balances
       ∧ (reconcileSync cfg w.room).skipped = w.room.skipped)
    ∧ (w.room.initialized = false →
       ∀ c ∈ cfg.captains,
         (lookupA (initialize_auction cfg w).room.balances c).isSome
         ∧ (lookupA (initialize_auction cfg w).room.teams c).isSome) := by
  constructor
  · intro h
    refine ⟨?_, rfl, rfl⟩
    unfold initialize_auction
    rw [if_pos h]
  · intro h c hc
    unfold initialize_auction
    rw [if_neg (by simp [h])]
    exact bootstrapReconcile_ensures cfg _ c hc

/-- Witness for C9 amended: the initialized room `w9` is only re-synced (C2
stays missing), while a fresh bootstrap of an untouched room gives every
configured captain balance and team entries. -/
theorem C9_initialize_reconcile_witness :
    (initialize_auction cfgEx w9 = { w9 with room := reconcileSync cfgEx w9.room }
      ∧ (reconcileSync cfgEx w9.room).balances = w9.room.balances
      ∧ (reconcileSync cfgEx w9.room).skipped = w9.room.skipped)
    ∧ ((lookupA (initialize_auction cfgEx w0Ex).room.balances "C2").isSome
      ∧ (lookupA (initialize_auction cfgEx w0Ex).room.teams "C2").isSome) :=
  ⟨(C9_initialize_reconcile cfgEx w9).1 (by decide),
   (C9_initialize_reconcile cfgEx w0Ex).2 (by decide) "C2" (by decide)⟩

end CricketAuction
